import Mathlib

set_option autoImplicit false

/-
Verification of the action-normalization core of the `checkngn` package.

The repository snapshot ships only the test driver `test_normalize.py` and
the package exports in `checkngn/__init__.py`; the module `checkngn/utils.py`
that defines `normalize_action` is not present.  The normalizer is therefore
modelled from the specification (sections 3 and 4.1): dynamic shape dispatch
over Python-like values, the three single-descriptor rules, element-wise
list handling, and the single error kind carrying the offending value.
-/

/-- Python-like runtime values that can appear as action descriptors or
inside parameter mappings: None, booleans, integers, strings, lists, and
string-keyed mappings, the latter modelled as association lists in which
the first occurrence of a key wins, matching Python dictionary access. -/
inductive Value : Type where
  | null : Value
  | bool : Bool → Value
  | int : Int → Value
  | str : String → Value
  | list : List Value → Value
  | map : List (String × Value) → Value

/-- First-match lookup in an association list; models Python mapping
access `m[k]` / `m.get(k)`. -/
def mapGet : List (String × Value) → String → Option Value
  | [], _ => none
  | (k, v) :: rest, key => if k = key then some v else mapGet rest key

/-- The empty parameter mapping. -/
def emptyMap : Value := .map []

/-- Canonical Action Record: a mapping with exactly the key "action"
followed by the key "params". -/
def mkRecord (a p : Value) : Value := .map [("action", a), ("params", p)]

/-- Tolerant decode of a pair's second element: a mapping is kept,
anything else is replaced by the empty mapping, per the spec's
tolerant-decode policy for rule 2. -/
def paramsOrEmpty : Value → Value
  | .map kvs => .map kvs
  | _ => emptyMap

/-- Modelled from the spec: the per-descriptor normalization, rules 1 to 3
and 5 of section 4.1 of `checkngn.utils.normalize_action`, whose source
file `checkngn/utils.py` is missing from the snapshot.  Rule 1: a string
becomes one record with empty params.  Rule 2: an ordered pair of an
identifier and a params mapping becomes one record; a missing or
non-mapping second element is tolerantly replaced by the empty mapping.
Rule 3: a mapping containing the key "action" becomes one record whose
params default to the empty mapping when the "params" key is absent.
Rule 5: any other shape fails, carrying the offending value. -/
def normalizeOne : Value → Except Value (List Value)
  | .str s => .ok [mkRecord (.str s) emptyMap]
  | .list [.str s] => .ok [mkRecord (.str s) emptyMap]
  | .list [.str s, p] => .ok [mkRecord (.str s) (paramsOrEmpty p)]
  | .map kvs =>
      match mapGet kvs "action" with
      | some a => .ok [mkRecord a ((mapGet kvs "params").getD emptyMap)]
      | none => .error (.map kvs)
  | v => .error v

/-- Modelled from the spec: rule 4 of section 4.1, element-wise
normalization of a list descriptor.  Each element is normalized by rules
1 to 3 and the singleton results are concatenated in order; the first
invalid element fails the whole call with no partial result. -/
def normalizeList : List Value → Except Value (List Value)
  | [] => .ok []
  | x :: xs =>
      match normalizeOne x with
      | .error e => .error e
      | .ok r =>
          match normalizeList xs with
          | .error e => .error e
          | .ok rs => .ok (r ++ rs)

/-- Modelled from the spec: `normalize_action` of `checkngn/utils.py`,
which is missing from the snapshot.  Dispatch on the runtime shape of the
descriptor: the pair shapes of rule 2 take precedence over element-wise
list handling of rule 4, as fixed by the spec's concrete scenario 2
against scenario 5; every non-list shape goes through rules 1, 3 and 5. -/
def normalize_action : Value → Except Value (List Value)
  | .list [.str s] => normalizeOne (.list [.str s])
  | .list [.str s, p] => normalizeOne (.list [.str s, p])
  | .list l => normalizeList l
  | v => normalizeOne v

/-- A single-descriptor shape accepted by rules 1 to 3: a string, a pair
with an identifier head whose second element is optional and arbitrary by
the tolerant-decode policy, or a mapping containing the key "action". -/
def isValidDescriptor : Value → Bool
  | .str _ => true
  | .list [.str _] => true
  | .list [.str _, _] => true
  | .map kvs => (mapGet kvs "action").isSome
  | _ => false

/-- The two-element pair shape of rule 2: an identifier head followed by
exactly one further element. -/
def pairShape2 : List Value → Bool
  | [.str _, _] => true
  | _ => false

/-- A top-level input accepted by the normalizer: a single accepted
descriptor, or a list all of whose elements are accepted descriptors. -/
def isValidInput : Value → Bool
  | .list [.str _] => true
  | .list [.str _, _] => true
  | .list l => l.all isValidDescriptor
  | v => isValidDescriptor v

/-- Mapping test on values. -/
def isMapping : Value → Bool
  | .map _ => true
  | _ => false

/-- Structurally canonical record: a mapping with exactly the key
"action" followed by the key "params". -/
def isRecordShaped : Value → Bool
  | .map [("action", _), ("params", _)] => true
  | _ => false

/-- Well-typed canonical record: additionally the "action" entry holds a
string and the "params" entry holds a mapping, as the spec's data-model
invariant describes. -/
def wfRecord : Value → Bool
  | .map [("action", .str _), ("params", .map _)] => true
  | _ => false

/-- A descriptor whose mapping form is typed as the spec's data model
describes: the value under "action", when present, is a string, and the
value under "params", when present, is a mapping.  Non-mapping shapes are
unconstrained. -/
def typedDescriptor : Value → Bool
  | .map kvs =>
      (match mapGet kvs "action" with
       | some (.str _) => true
       | some _ => false
       | none => true)
      && (match mapGet kvs "params" with
          | some (.map _) => true
          | some _ => false
          | none => true)
  | _ => true

/-- Typed input: pair shapes always produce mapping params, other lists
need every element typed, and single descriptors defer to
`typedDescriptor`. -/
def typedInput : Value → Bool
  | .list [.str _] => true
  | .list [.str _, _] => true
  | .list l => l.all typedDescriptor
  | v => typedDescriptor v

/-- Size of an input, bounding the number of produced records: one plus
the list length for lists, one otherwise. -/
def inputSize : Value → Nat
  | .list l => 1 + l.length
  | _ => 1

/-- Success test on a normalization result. -/
def isOkResult : Except Value (List Value) → Bool
  | .ok _ => true
  | .error _ => false

/-- Per-descriptor dichotomy: rules 1 to 3 succeed with a single record
exactly on the accepted single-descriptor shapes, and rule 5 fails with
the offending descriptor itself otherwise. -/
theorem normalizeOne_spec (v : Value) :
    (∃ a p, normalizeOne v = .ok [mkRecord a p] ∧ isValidDescriptor v = true)
    ∨ (normalizeOne v = .error v ∧ isValidDescriptor v = false) := by
  cases v with
  | null => exact Or.inr ⟨rfl, rfl⟩
  | bool b => exact Or.inr ⟨rfl, rfl⟩
  | int n => exact Or.inr ⟨rfl, rfl⟩
  | str s => exact Or.inl ⟨_, _, rfl, rfl⟩
  | map kvs =>
      have hm : normalizeOne (Value.map kvs) =
          (match mapGet kvs "action" with
            | some a => Except.ok [mkRecord a ((mapGet kvs "params").getD emptyMap)]
            | none => Except.error (Value.map kvs)) := rfl
      have hv : isValidDescriptor (Value.map kvs) = (mapGet kvs "action").isSome := rfl
      cases h : mapGet kvs "action" with
      | none =>
          refine Or.inr ⟨?_, ?_⟩
          · rw [hm, h]
          · rw [hv, h]
            rfl
      | some a =>
          refine Or.inl ⟨a, (mapGet kvs "params").getD emptyMap, ?_, ?_⟩
          · rw [hm, h]
          · rw [hv, h]
            rfl
  | list l =>
      cases l with
      | nil => exact Or.inr ⟨rfl, rfl⟩
      | cons x xs =>
          cases x with
          | str s =>
              cases xs with
              | nil => exact Or.inl ⟨_, _, rfl, rfl⟩
              | cons y ys =>
                  cases ys with
                  | nil => exact Or.inl ⟨_, _, rfl, rfl⟩
                  | cons z zs => exact Or.inr ⟨rfl, rfl⟩
          | null => exact Or.inr ⟨rfl, rfl⟩
          | bool b => exact Or.inr ⟨rfl, rfl⟩
          | int n => exact Or.inr ⟨rfl, rfl⟩
          | list l2 => exact Or.inr ⟨rfl, rfl⟩
          | map kvs => exact Or.inr ⟨rfl, rfl⟩

/-- An invalid single descriptor makes rules 1 to 3 fail with itself. -/
theorem normalizeOne_invalid {v : Value} (h : isValidDescriptor v = false) :
    normalizeOne v = .error v := by
  rcases normalizeOne_spec v with ⟨a, p, _, hv⟩ | ⟨he, _⟩
  · rw [hv] at h; cases h
  · exact he

/-- A valid single descriptor normalizes to a single record. -/
theorem normalizeOne_valid {v : Value} (h : isValidDescriptor v = true) :
    ∃ a p, normalizeOne v = .ok [mkRecord a p] := by
  rcases normalizeOne_spec v with ⟨a, p, he, _⟩ | ⟨_, hv⟩
  · exact ⟨a, p, he⟩
  · rw [hv] at h; cases h

/-- A per-descriptor success is always a singleton canonical record. -/
theorem normalizeOne_ok_shape {v : Value} {rs : List Value}
    (h : normalizeOne v = .ok rs) : ∃ a p, rs = [mkRecord a p] := by
  rcases normalizeOne_spec v with ⟨a, p, he, _⟩ | ⟨he, _⟩
  · rw [he] at h; exact ⟨a, p, (Except.ok.inj h).symm⟩
  · rw [he] at h; cases h

/-- A per-descriptor success certifies validity of the descriptor. -/
theorem normalizeOne_ok_valid {v : Value} {rs : List Value}
    (h : normalizeOne v = .ok rs) : isValidDescriptor v = true := by
  rcases normalizeOne_spec v with ⟨_, _, _, hv⟩ | ⟨he, _⟩
  · exact hv
  · rw [he] at h; cases h

/-- A canonical record re-normalizes to exactly itself. -/
theorem normalizeOne_record (a p : Value) :
    normalizeOne (mkRecord a p) = .ok [mkRecord a p] := rfl

/-- A successful element-wise normalization has one record per element,
the i-th record coming from the i-th element, and every record is
canonical. -/
theorem normalizeList_ok_spec (l : List Value) (rs : List Value)
    (h : normalizeList l = .ok rs) :
    rs.length = l.length
    ∧ (∀ i (hl : i < l.length) (hi : i < rs.length),
        normalizeOne (l.get ⟨i, hl⟩) = .ok [rs.get ⟨i, hi⟩])
    ∧ (∀ r ∈ rs, ∃ a p, r = mkRecord a p) := by
  induction l generalizing rs with
  | nil =>
      have h0 : rs = [] := (Except.ok.inj h).symm
      subst h0
      refine ⟨rfl, ?_, ?_⟩
      · intro i hl hi
        exact absurd hl (Nat.not_lt_zero i)
      · intro r hr
        cases hr
  | cons x xs ih =>
      simp only [normalizeList] at h
      cases hx : normalizeOne x with
      | error e => rw [hx] at h; cases h
      | ok r =>
          rw [hx] at h
          cases hxs : normalizeList xs with
          | error e => rw [hxs] at h; cases h
          | ok rs' =>
              rw [hxs] at h
              have hr : rs = r ++ rs' := (Except.ok.inj h).symm
              obtain ⟨a, p, hrp⟩ := normalizeOne_ok_shape hx
              subst hrp
              subst hr
              obtain ⟨ihlen, ihidx, ihmem⟩ := ih rs' hxs
              refine ⟨?_, ?_, ?_⟩
              · simp [ihlen]
              · intro i hl hi
                cases i with
                | zero => exact hx
                | succ j =>
                    have hl' : j < xs.length := Nat.lt_of_succ_lt_succ hl
                    have hi' : j < rs'.length := by
                      simp only [List.cons_append, List.length_cons,
                        List.nil_append] at hi
                      exact Nat.lt_of_succ_lt_succ hi
                    exact ihidx j hl' hi'
              · intro r hr
                rcases List.mem_cons.mp hr with h1 | h2
                · exact ⟨a, p, h1⟩
                · exact ihmem r h2

/-- A list all of whose elements are valid normalizes successfully. -/
theorem normalizeList_all_valid (l : List Value)
    (h : l.all isValidDescriptor = true) :
    ∃ rs, normalizeList l = .ok rs := by
  induction l with
  | nil => exact ⟨[], rfl⟩
  | cons x xs ih =>
      rw [List.all_cons, Bool.and_eq_true] at h
      obtain ⟨a, p, hx⟩ := normalizeOne_valid h.1
      obtain ⟨rs, hxs⟩ := ih h.2
      refine ⟨[mkRecord a p] ++ rs, ?_⟩
      simp only [normalizeList, hx, hxs]

/-- A list with an invalid element fails element-wise normalization at
its first invalid element, returning no partial result. -/
theorem normalizeList_invalid (l : List Value)
    (h : l.all isValidDescriptor = false) :
    ∃ e, e ∈ l ∧ isValidDescriptor e = false ∧ normalizeList l = .error e := by
  induction l with
  | nil => cases h
  | cons x xs ih =>
      rw [List.all_cons] at h
      cases hx : isValidDescriptor x with
      | false =>
          refine ⟨x, List.Mem.head _, hx, ?_⟩
          simp only [normalizeList, normalizeOne_invalid hx]
      | true =>
          rw [hx, Bool.true_and] at h
          obtain ⟨e, hmem, he, herr⟩ := ih h
          obtain ⟨a, p, hxo⟩ := normalizeOne_valid hx
          refine ⟨e, List.Mem.tail _ hmem, he, ?_⟩
          simp only [normalizeList, hxo, herr]

/-- A list of canonical records element-wise normalizes to itself. -/
theorem normalizeList_records_self (rs : List Value)
    (h : ∀ r ∈ rs, ∃ a p, r = mkRecord a p) :
    normalizeList rs = .ok rs := by
  induction rs with
  | nil => rfl
  | cons r rest ih =>
      obtain ⟨a, p, hr⟩ := h r (List.Mem.head _)
      subst hr
      have hrest := ih fun r' hr' => h r' (List.Mem.tail _ hr')
      simp only [normalizeList, normalizeOne_record, hrest]
      rfl

/-- Dispatch of the modelled `normalize_action`: either the input is a
list that is not the two-element pair shape and is handled element-wise,
or it is handled as a single descriptor by rules 1 to 3 and 5. -/
theorem normalize_dispatch (v : Value) :
    (∃ l, v = .list l ∧ pairShape2 l = false
        ∧ normalize_action v = normalizeList l
        ∧ isValidInput v = l.all isValidDescriptor
        ∧ typedInput v = l.all typedDescriptor)
    ∨ (normalize_action v = normalizeOne v
        ∧ isValidInput v = isValidDescriptor v
        ∧ typedInput v = typedDescriptor v
        ∧ ∀ l, v = .list l → pairShape2 l = true) := by
  cases v with
  | null => exact Or.inr ⟨rfl, rfl, rfl, fun l hl => Value.noConfusion hl⟩
  | bool b => exact Or.inr ⟨rfl, rfl, rfl, fun l hl => Value.noConfusion hl⟩
  | int n => exact Or.inr ⟨rfl, rfl, rfl, fun l hl => Value.noConfusion hl⟩
  | str s => exact Or.inr ⟨rfl, rfl, rfl, fun l hl => Value.noConfusion hl⟩
  | map kvs => exact Or.inr ⟨rfl, rfl, rfl, fun l hl => Value.noConfusion hl⟩
  | list l =>
      cases l with
      | nil => exact Or.inl ⟨[], rfl, rfl, rfl, rfl, rfl⟩
      | cons x xs =>
          cases x with
          | str s =>
              cases xs with
              | nil => exact Or.inl ⟨_, rfl, rfl, rfl, rfl, rfl⟩
              | cons y ys =>
                  cases ys with
                  | nil =>
                      refine Or.inr ⟨rfl, rfl, rfl, ?_⟩
                      intro l' hl
                      injection hl with h2
                      subst h2
                      rfl
                  | cons z zs => exact Or.inl ⟨_, rfl, rfl, rfl, rfl, rfl⟩
          | null => exact Or.inl ⟨_, rfl, rfl, rfl, rfl, rfl⟩
          | bool b => exact Or.inl ⟨_, rfl, rfl, rfl, rfl, rfl⟩
          | int n => exact Or.inl ⟨_, rfl, rfl, rfl, rfl, rfl⟩
          | list l2 => exact Or.inl ⟨_, rfl, rfl, rfl, rfl, rfl⟩
          | map kvs => exact Or.inl ⟨_, rfl, rfl, rfl, rfl, rfl⟩

/-- On list inputs that are not the pair shape, the normalizer is the
element-wise normalization. -/
theorem normalize_list_eq (l : List Value) (hp : pairShape2 l = false) :
    normalize_action (.list l) = normalizeList l := by
  rcases normalize_dispatch (.list l) with ⟨l', heq, _, he, _, _⟩ | ⟨_, _, _, hp2⟩
  · injection heq with h2
    subst h2
    exact he
  · rw [hp2 l rfl] at hp
    cases hp

/-- On valid single descriptors, the normalizer is the per-descriptor
normalization of rules 1 to 3. -/
theorem normalize_eq_one_of_valid {v : Value} (h : isValidDescriptor v = true) :
    normalize_action v = normalizeOne v := by
  cases v with
  | null => rfl
  | bool b => rfl
  | int n => rfl
  | str s => rfl
  | map kvs => rfl
  | list l =>
      cases l with
      | nil => cases h
      | cons x xs =>
          cases x with
          | str s =>
              cases xs with
              | nil => rfl
              | cons y ys =>
                  cases ys with
                  | nil => rfl
                  | cons z zs => cases h
          | null => cases h
          | bool b => cases h
          | int n => cases h
          | list l2 => cases h
          | map kvs => cases h

/-- Every record in a successful normalization is canonical. -/
theorem normalize_ok_records {v : Value} {rs : List Value}
    (h : normalize_action v = .ok rs) : ∀ r ∈ rs, ∃ a p, r = mkRecord a p := by
  rcases normalize_dispatch v with ⟨l, heq, _, he, _, _⟩ | ⟨he, _, _, _⟩
  · rw [he] at h
    exact (normalizeList_ok_spec l rs h).2.2
  · rw [he] at h
    obtain ⟨a, p, hrs⟩ := normalizeOne_ok_shape h
    intro r hr
    rw [hrs] at hr
    exact ⟨a, p, List.mem_singleton.mp hr⟩

/-- Rules 1 to 3 on a typed descriptor only produce well-typed records:
string actions and mapping params. -/
theorem normalizeOne_typed {v : Value} {rs : List Value}
    (h : normalizeOne v = .ok rs) (ht : typedDescriptor v = true) :
    rs.all wfRecord = true := by
  cases v with
  | null => cases h
  | bool b => cases h
  | int n => cases h
  | str s =>
      have h2 : [mkRecord (Value.str s) emptyMap] = rs := Except.ok.inj h
      subst h2
      rfl
  | map kvs =>
      have hm : normalizeOne (Value.map kvs) =
          (match mapGet kvs "action" with
            | some a => Except.ok [mkRecord a ((mapGet kvs "params").getD emptyMap)]
            | none => Except.error (Value.map kvs)) := rfl
      have htm : typedDescriptor (Value.map kvs) =
          ((match mapGet kvs "action" with
            | some (.str _) => true
            | some _ => false
            | none => true)
          && (match mapGet kvs "params" with
              | some (.map _) => true
              | some _ => false
              | none => true)) := rfl
      rw [hm] at h
      rw [htm] at ht
      cases hA : mapGet kvs "action" with
      | none => rw [hA] at h; cases h
      | some a =>
          rw [hA] at h ht
          cases a with
          | str sa =>
              cases hP : mapGet kvs "params" with
              | none =>
                  rw [hP] at h
                  have h2 : [mkRecord (Value.str sa) emptyMap] = rs := Except.ok.inj h
                  subst h2
                  rfl
              | some p =>
                  rw [hP] at h ht
                  cases p with
                  | map kvs2 =>
                      have h2 : [mkRecord (Value.str sa) (Value.map kvs2)] = rs :=
                        Except.ok.inj h
                      subst h2
                      rfl
                  | null => cases ht
                  | bool b => cases ht
                  | int n => cases ht
                  | str s2 => cases ht
                  | list l2 => cases ht
          | null => cases ht
          | bool b => cases ht
          | int n => cases ht
          | list l2 => cases ht
          | map kvs2 => cases ht
  | list l =>
      cases l with
      | nil => cases h
      | cons x xs =>
          cases x with
          | str s =>
              cases xs with
              | nil =>
                  have h2 : [mkRecord (Value.str s) emptyMap] = rs := Except.ok.inj h
                  subst h2
                  rfl
              | cons y ys =>
                  cases ys with
                  | nil =>
                      have h2 : [mkRecord (Value.str s) (paramsOrEmpty y)] = rs :=
                        Except.ok.inj h
                      subst h2
                      cases y with
                      | null => rfl
                      | bool b => rfl
                      | int n => rfl
                      | str s2 => rfl
                      | list l2 => rfl
                      | map kvs2 => rfl
                  | cons z zs => cases h
          | null => cases h
          | bool b => cases h
          | int n => cases h
          | list l2 => cases h
          | map kvs => cases h

/-- Element-wise normalization of a typed list only produces well-typed
records. -/
theorem normalizeList_typed {l : List Value} {rs : List Value}
    (h : normalizeList l = .ok rs) (ht : l.all typedDescriptor = true) :
    rs.all wfRecord = true := by
  induction l generalizing rs with
  | nil =>
      have h0 : rs = [] := (Except.ok.inj h).symm
      subst h0
      rfl
  | cons x xs ih =>
      rw [List.all_cons, Bool.and_eq_true] at ht
      simp only [normalizeList] at h
      cases hx : normalizeOne x with
      | error e => rw [hx] at h; cases h
      | ok r =>
          rw [hx] at h
          cases hxs : normalizeList xs with
          | error e => rw [hxs] at h; cases h
          | ok rs' =>
              rw [hxs] at h
              have hr : rs = r ++ rs' := (Except.ok.inj h).symm
              subst hr
              rw [List.all_append, Bool.and_eq_true]
              exact ⟨normalizeOne_typed hx ht.1, ih hxs ht.2⟩

/-- Every input has size at least one. -/
theorem one_le_inputSize (v : Value) : 1 ≤ inputSize v := by
  cases v with
  | null => exact Nat.le_refl 1
  | bool b => exact Nat.le_refl 1
  | int n => exact Nat.le_refl 1
  | str s => exact Nat.le_refl 1
  | map kvs => exact Nat.le_refl 1
  | list l =>
      show 1 ≤ 1 + l.length
      exact Nat.le_add_right 1 l.length

/-- Claim C1, counterexample: the descriptor mapping with "action" set to
the string "a" and "params" set to the integer 5 is accepted by rule 3,
which copies the params value without a type check; the resulting record
has a params entry that is not a mapping, contradicting the claim that
params is a mapping on every successful input. -/
theorem normalize_params_not_mapping_cex :
    normalize_action (.map [("action", Value.str "a"), ("params", Value.int 5)])
      = .ok [mkRecord (Value.str "a") (Value.int 5)]
    ∧ isMapping (Value.int 5) = false
    ∧ wfRecord (mkRecord (Value.str "a") (Value.int 5)) = false :=
  ⟨rfl, rfl, rfl⟩

/-- Claim C1, amended: on every successful input every returned element
is a mapping with exactly the two keys "action" and "params"; and when,
additionally, every mapping descriptor of the input is typed as the data
model describes (string under "action", mapping under "params" when
present), every returned element has a string action and a mapping
params. -/
theorem normalize_record_shape (v : Value) (rs : List Value)
    (h : normalize_action v = .ok rs) :
    rs.all isRecordShaped = true
    ∧ (typedInput v = true → rs.all wfRecord = true) := by
  constructor
  · rw [List.all_eq_true]
    intro r hr
    obtain ⟨a, p, hrp⟩ := normalize_ok_records h r hr
    rw [hrp]
    rfl
  · intro ht
    rcases normalize_dispatch v with ⟨l, heq, _, he, _, htl⟩ | ⟨he, _, htv, _⟩
    · subst heq
      rw [he] at h
      rw [htl] at ht
      exact normalizeList_typed h ht
    · rw [he] at h
      rw [htv] at ht
      exact normalizeOne_typed h ht

/-- Claim C1, witness: the amended theorem applied to a typed mapping
descriptor without a "params" key. -/
theorem normalize_record_shape_witness :
    [mkRecord (Value.str "a") emptyMap].all wfRecord = true :=
  (normalize_record_shape (.map [("action", Value.str "a")])
    [mkRecord (Value.str "a") emptyMap] rfl).2 rfl

/-- Claim C2, counterexample: the two-element list made of the string "a"
and the mapping with key "action" set to "b" has two valid descriptors as
elements, yet rule 2 captures it first as a pair, so the result has
length one, not two. -/
theorem normalize_pair_list_length_cex :
    [Value.str "a", Value.map [("action", Value.str "b")]].all isValidDescriptor = true
    ∧ normalize_action (.list [Value.str "a", Value.map [("action", Value.str "b")]])
        = .ok [mkRecord (Value.str "a") (Value.map [("action", Value.str "b")])]
    ∧ [mkRecord (Value.str "a") (Value.map [("action", Value.str "b")])].length
        ≠ [Value.str "a", Value.map [("action", Value.str "b")]].length :=
  ⟨rfl, rfl, by decide⟩

/-- Claim C2, amended: for every list L that is not the two-element pair
shape of rule 2 and whose elements are all valid descriptors, the
normalizer succeeds, the result has the same length as L, the i-th result
element is the sole element of the normalization of the i-th input
element, and the empty list normalizes to the empty result. -/
theorem normalize_list_elementwise (l : List Value) (hp : pairShape2 l = false)
    (hv : l.all isValidDescriptor = true) :
    (∃ rs, normalize_action (.list l) = .ok rs)
    ∧ (∀ rs, normalize_action (.list l) = .ok rs →
        rs.length = l.length
        ∧ ∀ i (hl : i < l.length) (hi : i < rs.length),
            normalize_action (l.get ⟨i, hl⟩) = .ok [rs.get ⟨i, hi⟩])
    ∧ normalize_action (.list ([] : List Value)) = .ok [] := by
  have hle := normalize_list_eq l hp
  refine ⟨?_, ?_, rfl⟩
  · obtain ⟨rs, hrs⟩ := normalizeList_all_valid l hv
    exact ⟨rs, by rw [hle]; exact hrs⟩
  · intro rs hrs
    rw [hle] at hrs
    obtain ⟨hlen, hidx, _⟩ := normalizeList_ok_spec l rs hrs
    refine ⟨hlen, ?_⟩
    intro i hl hi
    have hval : isValidDescriptor (l.get ⟨i, hl⟩) = true :=
      List.all_eq_true.mp hv _ (l.get_mem i hl)
    rw [normalize_eq_one_of_valid hval]
    exact hidx i hl hi

/-- Claim C2, witness: the amended theorem applied to a three-element
mixed list of valid descriptors. -/
theorem normalize_list_elementwise_witness :
    pairShape2 [Value.str "x", Value.map [("action", Value.str "z")], Value.str "y"] = false
    ∧ [Value.str "x", Value.map [("action", Value.str "z")], Value.str "y"].all
        isValidDescriptor = true
    ∧ [mkRecord (Value.str "x") emptyMap, mkRecord (Value.str "z") emptyMap,
        mkRecord (Value.str "y") emptyMap].length
      = [Value.str "x", Value.map [("action", Value.str "z")], Value.str "y"].length :=
  ⟨rfl, rfl,
   ((normalize_list_elementwise
       [Value.str "x", Value.map [("action", Value.str "z")], Value.str "y"]
       rfl rfl).2.1
     [mkRecord (Value.str "x") emptyMap, mkRecord (Value.str "z") emptyMap,
      mkRecord (Value.str "y") emptyMap] rfl).1⟩

/-- Claim C3: a two-element pair of an identifier and a mapping produces
exactly the one record pairing them, not two records. -/
theorem normalize_pair_eq (a : String) (kvs : List (String × Value)) :
    normalize_action (.list [.str a, .map kvs])
      = .ok [mkRecord (.str a) (.map kvs)] := rfl

/-- Claim C4: a bare identifier string produces exactly the one record of
that action with empty params. -/
theorem normalize_string_eq (s : String) :
    normalize_action (.str s) = .ok [mkRecord (.str s) emptyMap] := rfl

/-- Claim C5: a mapping containing "action" produces the one record with
its "params" value when that key is present and empty params when it is
absent. -/
theorem normalize_mapping_eq (kvs : List (String × Value)) (a : Value)
    (ha : mapGet kvs "action" = some a) :
    (∀ p, mapGet kvs "params" = some p →
        normalize_action (.map kvs) = .ok [mkRecord a p])
    ∧ (mapGet kvs "params" = none →
        normalize_action (.map kvs) = .ok [mkRecord a emptyMap]) := by
  have hm : normalize_action (Value.map kvs) =
      (match mapGet kvs "action" with
        | some a => Except.ok [mkRecord a ((mapGet kvs "params").getD emptyMap)]
        | none => Except.error (Value.map kvs)) := rfl
  constructor
  · intro p hp
    rw [hm, ha, hp]
    rfl
  · intro hp
    rw [hm, ha, hp]
    rfl

/-- Claim C5, witness: the theorem applied to a mapping with params and
to a mapping without params. -/
theorem normalize_mapping_eq_witness :
    normalize_action (.map [("action", Value.str "a"), ("params", Value.map [("k", Value.int 1)])])
      = .ok [mkRecord (Value.str "a") (Value.map [("k", Value.int 1)])]
    ∧ normalize_action (.map [("action", Value.str "b")])
      = .ok [mkRecord (Value.str "b") emptyMap] :=
  ⟨(normalize_mapping_eq
      [("action", Value.str "a"), ("params", Value.map [("k", Value.int 1)])]
      (Value.str "a") rfl).1 (Value.map [("k", Value.int 1)]) rfl,
   (normalize_mapping_eq [("action", Value.str "b")] (Value.str "b") rfl).2 rfl⟩

/-- Claim C6: a pair-shaped descriptor whose second element is absent or
is not a mapping does not fail and produces a record with empty params. -/
theorem normalize_pair_tolerant (a : String) (x : Value) (hx : isMapping x = false) :
    normalize_action (.list [.str a, x]) = .ok [mkRecord (.str a) emptyMap]
    ∧ normalize_action (.list [.str a]) = .ok [mkRecord (.str a) emptyMap] := by
  refine ⟨?_, rfl⟩
  cases x with
  | map kvs => cases hx
  | null => rfl
  | bool b => rfl
  | int n => rfl
  | str s2 => rfl
  | list l2 => rfl

/-- Claim C6, witness: the theorem applied to a pair with an integer
second element. -/
theorem normalize_pair_tolerant_witness :
    normalize_action (.list [Value.str "a", Value.int 0])
      = .ok [mkRecord (Value.str "a") emptyMap]
    ∧ normalize_action (.list [Value.str "a"])
      = .ok [mkRecord (Value.str "a") emptyMap] :=
  normalize_pair_tolerant "a" (Value.int 0) rfl

/-- Claim C7: normalization succeeds exactly on the accepted shapes, and
on invalid input it fails carrying the offending value, namely the input
itself or the offending invalid element of a list input. -/
theorem normalize_ok_iff_valid (v : Value) :
    isOkResult (normalize_action v) = isValidInput v
    ∧ (isValidInput v = false →
        normalize_action v = .error v
        ∨ ∃ l e, v = .list l ∧ e ∈ l ∧ isValidDescriptor e = false
            ∧ normalize_action v = .error e) := by
  rcases normalize_dispatch v with ⟨l, heq, _, he, hvi, _⟩ | ⟨he, hvi, _, _⟩
  · subst heq
    constructor
    · rw [he, hvi]
      cases hall : l.all isValidDescriptor with
      | true =>
          obtain ⟨rs, hrs⟩ := normalizeList_all_valid l hall
          rw [hrs]
          rfl
      | false =>
          obtain ⟨e, _, _, herr⟩ := normalizeList_invalid l hall
          rw [herr]
          rfl
    · intro hinv
      rw [hvi] at hinv
      obtain ⟨e, hmem, hev, herr⟩ := normalizeList_invalid l hinv
      right
      exact ⟨l, e, rfl, hmem, hev, by rw [he]; exact herr⟩
  · constructor
    · rw [he, hvi]
      rcases normalizeOne_spec v with ⟨a, p, hok, hval⟩ | ⟨herr, hval⟩
      · rw [hok, hval]
        rfl
      · rw [herr, hval]
        rfl
    · intro hinv
      rw [hvi] at hinv
      left
      rw [he]
      exact normalizeOne_invalid hinv

/-- Claim C7, witness: the theorem applied to the invalid integer
descriptor 7. -/
theorem normalize_ok_iff_valid_witness :
    isOkResult (normalize_action (Value.int 7)) = isValidInput (Value.int 7)
    ∧ (normalize_action (Value.int 7) = .error (Value.int 7)
       ∨ ∃ l e, Value.int 7 = .list l ∧ e ∈ l ∧ isValidDescriptor e = false
           ∧ normalize_action (Value.int 7) = .error e) :=
  ⟨(normalize_ok_iff_valid (Value.int 7)).1,
   (normalize_ok_iff_valid (Value.int 7)).2 rfl⟩

/-- Claim C8, counterexample: the two-element list of the string "a" and
the integer 5 contains an element of invalid shape, yet the call does not
fail: rule 2 captures the list as a pair and tolerantly discards the
invalid second element. -/
theorem normalize_pair_invalid_elem_cex :
    isValidDescriptor (Value.int 5) = false
    ∧ (Value.int 5) ∈ [Value.str "a", Value.int 5]
    ∧ normalize_action (.list [Value.str "a", Value.int 5])
        = .ok [mkRecord (Value.str "a") emptyMap] :=
  ⟨rfl, List.Mem.tail _ (List.Mem.head _), rfl⟩

/-- Claim C8, amended: for every list that is not the two-element pair
shape of rule 2 and contains at least one element of invalid shape, the
whole call fails with the offending value and returns no partial result,
even when every other element is valid. -/
theorem normalize_list_fails_on_invalid (l : List Value) (hp : pairShape2 l = false)
    (e : Value) (hmem : e ∈ l) (he : isValidDescriptor e = false) :
    ∃ w, w ∈ l ∧ isValidDescriptor w = false
      ∧ normalize_action (.list l) = .error w := by
  have hall : l.all isValidDescriptor = false := by
    cases hall : l.all isValidDescriptor with
    | false => rfl
    | true =>
        rw [List.all_eq_true.mp hall e hmem] at he
        cases he
  obtain ⟨w, hw, hwv, herr⟩ := normalizeList_invalid l hall
  exact ⟨w, hw, hwv, by rw [normalize_list_eq l hp]; exact herr⟩

/-- Claim C8, witness: the amended theorem applied to a three-element
list whose middle element is an invalid integer. -/
theorem normalize_list_fails_on_invalid_witness :
    pairShape2 [Value.str "x", Value.int 3, Value.str "y"] = false
    ∧ isValidDescriptor (Value.int 3) = false
    ∧ ∃ w, w ∈ [Value.str "x", Value.int 3, Value.str "y"]
        ∧ isValidDescriptor w = false
        ∧ normalize_action (.list [Value.str "x", Value.int 3, Value.str "y"])
            = .error w :=
  ⟨rfl, rfl,
   normalize_list_fails_on_invalid _ rfl (Value.int 3)
     (List.Mem.tail _ (List.Mem.head _)) rfl⟩

/-- Claim C9: normalization is idempotent on its own output; feeding a
successful result back in reproduces it exactly. -/
theorem normalize_idempotent (v : Value) (rs : List Value)
    (h : normalize_action v = .ok rs) :
    normalize_action (.list rs) = .ok rs := by
  have hrec := normalize_ok_records h
  have hp : pairShape2 rs = false := by
    cases rs with
    | nil => rfl
    | cons r rest =>
        obtain ⟨a, p, hr⟩ := hrec r (List.Mem.head _)
        rw [hr]
        rfl
  rw [normalize_list_eq rs hp]
  exact normalizeList_records_self rs hrec

/-- Claim C9, witness: the theorem applied to the output of normalizing
the string "n". -/
theorem normalize_idempotent_witness :
    normalize_action (.list [mkRecord (Value.str "n") emptyMap])
      = .ok [mkRecord (Value.str "n") emptyMap] :=
  normalize_idempotent (Value.str "n") _ rfl

/-- Claim C10: normalization terminates on every input, either returning
a result bounded in length by the input size or failing with the
offending value; the modelled recursion is structural in the input. -/
theorem normalize_total (v : Value) :
    (∃ rs, normalize_action v = .ok rs ∧ rs.length ≤ inputSize v)
    ∨ (∃ w, normalize_action v = .error w) := by
  cases h : normalize_action v with
  | error w => exact Or.inr ⟨w, rfl⟩
  | ok rs =>
      refine Or.inl ⟨rs, rfl, ?_⟩
      rcases normalize_dispatch v with ⟨l, heq, _, he, _, _⟩ | ⟨he, _, _, _⟩
      · subst heq
        rw [he] at h
        rw [(normalizeList_ok_spec l rs h).1]
        show l.length ≤ 1 + l.length
        exact Nat.le_add_left l.length 1
      · rw [he] at h
        obtain ⟨a, p, hrs⟩ := normalizeOne_ok_shape h
        rw [hrs]
        exact one_le_inputSize v

/-- Scenario 1 of the spec, the string descriptor used by the test
driver. -/
theorem scenario_string : normalize_action (.str "notify_manager")
    = .ok [mkRecord (.str "notify_manager") emptyMap] := rfl

/-- Scenario 2 of the spec, the pair descriptor used by the test
driver. -/
theorem scenario_pair :
    normalize_action (.list [.str "put_on_sale", .map [("percent", .int 25)]])
    = .ok [mkRecord (.str "put_on_sale") (.map [("percent", .int 25)])] := rfl

/-- Scenario 3 of the spec, the mapping descriptor used by the test
driver. -/
theorem scenario_mapping :
    normalize_action (.map [("action", .str "log_event"), ("params", .map [("id", .int 1)])])
    = .ok [mkRecord (.str "log_event") (.map [("id", .int 1)])] := rfl

/-- Scenario 4 of the spec, a list of mapping descriptors without
params. -/
theorem scenario_mapping_list :
    normalize_action (.list [.map [("action", .str "a")], .map [("action", .str "b")]])
    = .ok [mkRecord (.str "a") emptyMap, mkRecord (.str "b") emptyMap] := rfl

/-- Scenario 5 of the spec, a mixed list of a string, a nested pair and a
mapping, normalized element-wise in order. -/
theorem scenario_mixed_list :
    normalize_action
      (.list [.str "notify", .list [.str "sale", .map [("p", .int 10)]],
              .map [("action", .str "log")]])
    = .ok [mkRecord (.str "notify") emptyMap,
           mkRecord (.str "sale") (.map [("p", .int 10)]),
           mkRecord (.str "log") emptyMap] := rfl

/-- Edge case of the spec: the empty list yields the empty result with no
error. -/
theorem scenario_empty_list : normalize_action (.list []) = .ok [] := rfl

/-- Error condition of the spec: an integer descriptor fails carrying the
offending value. -/
theorem scenario_invalid_int : normalize_action (.int 3) = .error (.int 3) := rfl

/-- Error condition of the spec: a mapping without "action" fails
carrying the offending value. -/
theorem scenario_invalid_mapping :
    normalize_action (.map [("x", .int 1)]) = .error (.map [("x", .int 1)]) := rfl
